import Mathlib

/-!
Verification of `tools/generate_readme.py` (profile README generator).

The Python source is shallowly embedded below:
* Python `str` values that may also be `None` become `Option String`
  (`none` = Python `None`).
* Python dicts used as language-byte mappings become insertion-ordered
  association lists `List (String × Nat)` (CPython dicts preserve
  insertion order, as does `defaultdict`).
* Floating-point percentages are modelled by exact rationals `ℚ`; the
  built-in `round` (banker's rounding, half-to-even) and the `"%.1f"`
  format are modelled by `pyRound` on the exact value.
* Fallible remote fetches become `Except String` valued inputs, so the
  `try/except` sites of the Python are explicit `match`es.
-/

namespace GenReadme

/-- Python `f"{x}"` on a possibly-`None` string: `None` renders as `"None"`. -/
def pyStr : Option String → String
  | none => "None"
  | some s => s

/-- Python truthiness of a possibly-`None` string: `None` and `""` are falsy. -/
def pyTruthy : Option String → Bool
  | none => false
  | some s => s ≠ ""

/-- Python `str.strip()`: remove whitespace from both ends (computed on the
character list so the kernel can evaluate it). -/
def pyStrip (s : String) : String :=
  String.mk
    (((s.data.dropWhile Char.isWhitespace).reverse.dropWhile
        Char.isWhitespace).reverse)

/-- Python `str.replace(pat, repl)` for a single-character pattern: each
occurrence of the character becomes `repl`. -/
def replaceStr (s : String) (pat : Char) (repl : String) : String :=
  String.mk (s.data.flatMap (fun c => if c = pat then repl.data else [c]))

/-- Python built-in `round` to an integer: round half to even (banker's
rounding), modelled on the exact rational value. -/
def pyRound (x : ℚ) : ℤ :=
  let f := x.floor
  let frac := x - f
  if frac < 1/2 then f
  else if 1/2 < frac then f + 1
  else if f % 2 = 0 then f else f + 1

/-- Total byte count of a language-totals mapping:
`total_bytes = sum(lang_totals.values())`. -/
def sumBytes (lang_totals : List (String × Nat)) : Nat :=
  (lang_totals.map (·.2)).sum

/-- Exact percentage of `b` bytes out of `total`: `(b / total_bytes) * 100`. -/
def pctQ (b total : Nat) : ℚ :=
  (b : ℚ) / (total : ℚ) * 100

/-- The percentage in tenths as rendered by the `f"{pct:.1f}"` format:
the exact percentage, times ten, rounded half-to-even. -/
def pctTenths (b total : Nat) : ℤ :=
  pyRound (10 * pctQ b total)

/-- The rendered percentage cell `f"{pct:.1f}%"` (for the non-negative
percentages that occur here). -/
def pctRender (b total : Nat) : String :=
  let t := (pctTenths b total).toNat
  toString (t / 10) ++ "." ++ toString (t % 10) ++ "%"

/-- A string of `n` copies of `c`; Python `"c" * n` with a possibly negative
count (a negative count gives the empty string). -/
def strRepeat (c : Char) (n : ℤ) : String :=
  String.mk (List.replicate n.toNat c)

/-- Python `progress_bar(percent, length=20)`:
`filled = int(round(percent / 100 * length)); empty = length - filled;
return "█" * filled + "░" * empty`. -/
def progress_bar (percent : ℚ) (length : Nat := 20) : String :=
  let filled : ℤ := pyRound (percent / 100 * (length : ℚ))
  let empty : ℤ := (length : ℤ) - filled
  strRepeat '█' filled ++ strRepeat '░' empty

/-- Stable insertion of a pair into a list sorted by byte count descending:
the pair goes in front of the first element whose count is `≤` its own, so
an element inserted from further left in the original list stays in front of
equal-count elements to its right. -/
def insertByBytes (p : String × Nat) : List (String × Nat) → List (String × Nat)
  | [] => [p]
  | q :: rest => if q.2 ≤ p.2 then p :: q :: rest else q :: insertByBytes p rest

/-- The `sorted(lang_totals.items(), key=lambda kv: kv[1], reverse=True)`
step: a stable sort by byte count descending.  Python's `sorted` is stable
and `reverse=True` does not reorder ties; a stable sort with respect to a
total preorder has a unique output, so stable insertion sort computes the
same list as the source's sort. -/
def sortedLangs : List (String × Nat) → List (String × Nat)
  | [] => []
  | p :: rest => insertByBytes p (sortedLangs rest)

/-- One table row `f"| {lang} | {pct_str} | {bar} |"` of the language
section, for a language with `b` bytes out of `total`. -/
def langRow (lang : String) (b total : Nat) : String :=
  "| " ++ lang ++ " | " ++ pctRender b total ++ " | " ++
    progress_bar (pctQ b total) 20 ++ " |"

/-- Python `build_language_section(lang_totals)`. -/
def build_language_section (lang_totals : List (String × Nat)) : String :=
  let total_bytes := sumBytes lang_totals
  if total_bytes = 0 then "No language data available.\n"
  else
    let ordered := sortedLangs lang_totals
    let lines := ["| Language | % | Progress |", "|---:|:---:|:---|"] ++
      ordered.map (fun p => langRow p.1 p.2 total_bytes)
    String.intercalate "\n" lines ++ "\n"

/-- Round-half-to-even of the fraction `n / d` (for `d > 0`), computed on
natural numbers; bridges `pyRound` to kernel-computable arithmetic. -/
def divRoundHalfEven (n d : Nat) : Nat :=
  let q := n / d
  let r := n % d
  if 2 * r < d then q
  else if d < 2 * r then q + 1
  else if q % 2 = 0 then q else q + 1

/-- The sum, over the rows of the language table in their rendered order, of
the rendered percentages measured in tenths of a percent. -/
def sumRenderedTenths (lang_totals : List (String × Nat)) : ℤ :=
  ((sortedLangs lang_totals).map
    (fun p => pctTenths p.2 (sumBytes lang_totals))).sum

/-! ### Language aggregator (`fetch_languages_for_repos`) -/

/-- A repository record as consumed by the aggregator: its `fork` flag and
its `languages_url` (`none` models an absent key or `None`). -/
structure Repo where
  fork : Bool
  languages_url : Option String
  deriving DecidableEq

/-- One step of `totals[lang] += bytes_count` on a `defaultdict(int)`
modelled as an insertion-ordered association list: an existing key is
incremented in place, a new key is appended at the end. -/
def addTotal : List (String × Nat) → String → Nat → List (String × Nat)
  | [], lang, b => [(lang, b)]
  | (k, v) :: rest, lang, b =>
    if k = lang then (k, v + b) :: rest else (k, v) :: addTotal rest lang b

/-- The inner loop `for lang, bytes_count in data.items(): totals[lang] += bytes_count`. -/
def addLangs (totals : List (String × Nat)) (data : List (String × Nat)) :
    List (String × Nat) :=
  data.foldl (fun t kb => addTotal t kb.1 kb.2) totals

/-- One iteration of the `for r in repos` loop of
`fetch_languages_for_repos`: skip forks (`if r.get("fork"): continue`), skip
absent or empty `languages_url` (`if not lang_url: continue`), skip failed
fetches (`except Exception: continue`), otherwise accumulate the fetched
language data. -/
def aggStep (fetch : String → Except String (List (String × Nat)))
    (totals : List (String × Nat)) (r : Repo) : List (String × Nat) :=
  if r.fork then totals
  else
    match r.languages_url with
    | none => totals
    | some u =>
      if u = "" then totals
      else
        match fetch u with
        | .error _ => totals
        | .ok data => addLangs totals data

/-- Python `fetch_languages_for_repos(repos, token)`.  The per-repository
remote call `gh_get(lang_url)` is passed in as `fetch`; its `Except` result
makes the `try/except Exception: continue` explicit. -/
def fetch_languages_for_repos (repos : List Repo)
    (fetch : String → Except String (List (String × Nat))) :
    List (String × Nat) :=
  repos.foldl (aggStep fetch) []

/-- Look up a language's accumulated byte count, `0` when absent (the
`defaultdict(int)` read semantics). -/
def totalOf (totals : List (String × Nat)) (lang : String) : Nat :=
  match totals with
  | [] => 0
  | (k, v) :: rest => if k = lang then v else totalOf rest lang

/-- The byte count a single repository record contributes for one language:
zero for forks, for absent or empty `languages_url`, and for failed
fetches; otherwise the sum of that language's entries in the fetched data. -/
def repoContrib (fetch : String → Except String (List (String × Nat)))
    (r : Repo) (lang : String) : Nat :=
  if r.fork then 0
  else
    match r.languages_url with
    | none => 0
    | some u =>
      if u = "" then 0
      else
        match fetch u with
        | .error _ => 0
        | .ok data => ((data.filter (fun kb => kb.1 = lang)).map (·.2)).sum

/-! ### Recent-activity fetcher (`fetch_recent_commits`) -/

/-- One entry of a push event's `payload.commits` list. -/
structure EvCommit where
  sha : Option String
  message : Option String
  deriving DecidableEq

/-- One event of the public event feed: its `type`, the `repo.name` field
(`none` models an absent key or `None`), and its payload's commit list. -/
structure Event where
  type : String
  repoName : Option String
  commits : List EvCommit
  deriving DecidableEq

/-- One extracted commit reference `{"repo": ..., "message": ..., "url": ...}`. -/
structure CommitRef where
  repo : Option String
  message : Option String
  url : String
  deriving DecidableEq

/-- Python `f"https://github.com/{repo_name}/commit/{sha}" if sha and repo_name else ""`. -/
def commitUrl (repoName sha : Option String) : String :=
  if pyTruthy sha ∧ pyTruthy repoName then
    "https://github.com/" ++ pyStr repoName ++ "/commit/" ++ pyStr sha
  else ""

/-- The commit references one push event contributes, in payload order. -/
def pushCommits (repoName : Option String) (cs : List EvCommit) : List CommitRef :=
  cs.map (fun c => ⟨repoName, c.message, commitUrl repoName c.sha⟩)

/-- The inner `for c in ev...commits` loop: append each reference to `acc`
and return early (`true` flag) as soon as `len(commits) >= limit`. -/
def innerLoop (limit : Nat) (acc : List CommitRef) :
    List CommitRef → List CommitRef × Bool
  | [] => (acc, false)
  | c :: cs =>
    let acc' := acc ++ [c]
    if limit ≤ acc'.length then (acc', true) else innerLoop limit acc' cs

/-- The outer `for ev in events` loop of `fetch_recent_commits`: skip
non-push events, process each push event's commits, stop when the inner
loop reported an early return. -/
def fetchLoop (limit : Nat) : List Event → List CommitRef → List CommitRef
  | [], acc => acc
  | ev :: rest, acc =>
    if ev.type ≠ "PushEvent" then fetchLoop limit rest acc
    else
      let r := innerLoop limit acc (pushCommits ev.repoName ev.commits)
      if r.2 then r.1 else fetchLoop limit rest r.1

/-- Python `fetch_recent_commits(username, token, limit)`.  The single
remote call fetching the event feed is passed in as an `Except` value,
making the `try/except Exception: return []` explicit. -/
def fetch_recent_commits (events : Except String (List Event))
    (limit : Nat := 5) : List CommitRef :=
  match events with
  | .error _ => []
  | .ok evs => fetchLoop limit evs []

/-- The commit references of the feed's push events, in feed order, each
event's commits in payload order (the sequence the claim says the fetcher
truncates to its limit). -/
def pushedRefs (events : List Event) : List CommitRef :=
  (events.filter (fun ev => ev.type = "PushEvent")).flatMap
    (fun ev => pushCommits ev.repoName ev.commits)

/-! ### Document builder (`build_readme`) and its callers' inputs -/

/-- The `cfg` dict `main` passes to `build_readme`: all six keys are always
present, each value is a string or `None` (`none`). -/
structure Cfg where
  github_username : Option String
  display_name : Option String
  bio_code : Option String
  linkedin_url : Option String
  visitor_badge_url : Option String
  gif_url : Option String
  deriving DecidableEq

/-- The `stats_img_urls` dict with keys `"stats"` and `"top_langs"`. -/
structure StatsUrls where
  stats : Option String
  top_langs : Option String
  deriving DecidableEq

/-- Python `make_shield_link(label, color, logo)`. -/
def make_shield_link (label color logo : String) : String :=
  "https://img.shields.io/badge/" ++ replaceStr label ' ' "%20" ++ "-" ++ color ++
    "?style=for-the-badge&logo=" ++ logo ++ "&logoColor=white"

/-- The `lines` list built by `build_readme` after `linkedin` was computed
(so after the one statement of the body that can raise), in the source's
append order. -/
def readmeLines (cfg : Cfg) (linkedin : String) (stats : StatsUrls)
    (lang_section_md : String) (recent_commits : List CommitRef)
    (last_updated : String) : List String :=
  let display_name := pyStr cfg.display_name
  ["# " ++ display_name ++ "\n"]
  ++ (if pyTruthy cfg.gif_url then
        ["<p align=\"center\">",
         "  <img src=\"" ++ pyStr cfg.gif_url ++ "\" alt=\"Animated coder\" width=\"320\"/>",
         "</p>\n"]
      else [])
  ++ (if pyTruthy cfg.bio_code then
        ["```cpp", pyStr cfg.bio_code, "```\n"]
      else [])
  ++ (if linkedin ≠ "" then
        ["[![LinkedIn](" ++ make_shield_link "LinkedIn" "blue" "linkedin" ++
          ")](" ++ linkedin ++ ")  "]
      else [])
  ++ (let cards :=
        (match stats.stats with
         | some s => if s ≠ "" then ["![GitHub stats](" ++ s ++ ")"] else []
         | none => [])
        ++ (match stats.top_langs with
            | some s => if s ≠ "" then ["![Top languages](" ++ s ++ ")"] else []
            | none => [])
        ++ (if pyTruthy cfg.visitor_badge_url then
              ["[![Visitors](" ++ pyStr cfg.visitor_badge_url ++
                ")](https://github.com/" ++ pyStr cfg.github_username ++ ")"]
            else [])
      if cards ≠ [] then [String.intercalate "  \n" cards ++ "\n"] else [])
  ++ ["## Languages\n", lang_section_md, "## Recent activity\n"]
  ++ (if recent_commits = [] then
        ["_No public commits found yet — start committing!_\n"]
      else
        recent_commits.map
          (fun c =>
            if c.url ≠ "" then
              "- [" ++ pyStr c.message ++ "](" ++ c.url ++ ") — _" ++
                pyStr c.repo ++ "_"
            else
              "- " ++ pyStr c.message ++ " — _" ++ pyStr c.repo ++ "_")
        ++ [""])
  ++ ["_Last updated: " ++ last_updated ++ " UTC_\n", "---",
      "This README is generated automatically. Updates occur daily and whenever this repository receives a push."]

/-- Python `build_readme(cfg, stats_img_urls, lang_section_md, recent_commits,
last_updated)`.  The statement `linkedin = cfg.get("linkedin_url", "").strip()`
raises `AttributeError` when the stored value is `None` (the key is always
present in the dict `main` builds, so the `""` default is dead); every other
path is total. -/
def build_readme (cfg : Cfg) (stats : StatsUrls) (lang_section_md : String)
    (recent_commits : List CommitRef) (last_updated : String) :
    Except String String :=
  match cfg.linkedin_url with
  | none => .error "AttributeError: 'NoneType' object has no attribute 'strip'"
  | some lk =>
    .ok (String.intercalate "\n"
      (readmeLines cfg (pyStrip lk) stats lang_section_md recent_commits last_updated))

/-! ### Animated-image URL resolver (`find_gif_url`) -/

/-- The configuration keys `find_gif_url` reads from the raw `config.yml`
mapping; `none` models an absent key, so `cfg.get(key, default)` becomes
`getD`. -/
structure GifCfg where
  external_gif_url : Option String
  gif_path : Option String
  branch_name : Option String
  deriving DecidableEq

/-- Python `find_gif_url(cfg, username)`.  The filesystem probe
`os.path.exists(os.path.join(ROOT, path))` is passed in as the predicate
`exists_at` on paths relative to the project root. -/
def find_gif_url (cfg : GifCfg) (username : String)
    (exists_at : String → Bool) : String :=
  let external := pyStrip (cfg.external_gif_url.getD "")
  let gif_path := pyStrip (cfg.gif_path.getD "")
  let branch :=
    let b := pyStrip (cfg.branch_name.getD "Main")
    if b = "" then "Main" else b
  if external ≠ "" then external
  else if gif_path = "" then ""
  else if exists_at gif_path then replaceStr gif_path '\\' "/"
  else
    "https://raw.githubusercontent.com/" ++ username ++ "/" ++ username ++
      "/" ++ branch ++ "/" ++ gif_path

/-! ## Helper lemmas -/

theorem ratFloor_eq (q : ℚ) : q.floor = ⌊q⌋ :=
  (Rat.floor_def' q).trans Rat.floor_def.symm

theorem pyRound_le {x : ℚ} {n : ℤ} (h : x ≤ (n : ℚ)) : pyRound x ≤ n := by
  have hf : ⌊x⌋ ≤ n := by
    have := Int.floor_mono h
    rwa [Int.floor_intCast] at this
  have hfx : (⌊x⌋ : ℚ) ≤ x := Int.floor_le x
  simp only [pyRound, ratFloor_eq]
  split_ifs with h1 h2 h3
  · exact hf
  · rcases lt_or_eq_of_le hf with hlt | heq
    · omega
    · subst heq
      linarith
  · exact hf
  · rcases lt_or_eq_of_le hf with hlt | heq
    · omega
    · subst heq
      have hx2 : x - (⌊x⌋ : ℚ) = 1/2 := le_antisymm (not_lt.mp h2) (not_lt.mp h1)
      linarith

theorem pyRound_nonneg {x : ℚ} (h : 0 ≤ x) : 0 ≤ pyRound x := by
  have hf : (0 : ℤ) ≤ ⌊x⌋ := Int.floor_nonneg.mpr h
  simp only [pyRound, ratFloor_eq]
  split_ifs <;> omega

theorem abs_pyRound_sub_le (x : ℚ) : |((pyRound x : ℤ) : ℚ) - x| ≤ 1/2 := by
  have h0 : (⌊x⌋ : ℚ) ≤ x := Int.floor_le x
  have h1 : x < (⌊x⌋ : ℚ) + 1 := Int.lt_floor_add_one x
  simp only [pyRound, ratFloor_eq]
  split_ifs with ha hb hc
  · rw [abs_le]
    constructor <;> linarith
  · rw [abs_le]
    push_cast
    constructor <;> linarith
  · have hx2 : x - (⌊x⌋ : ℚ) = 1/2 := le_antisymm (not_lt.mp hb) (not_lt.mp ha)
    rw [abs_le]
    constructor <;> linarith
  · have hx2 : x - (⌊x⌋ : ℚ) = 1/2 := le_antisymm (not_lt.mp hb) (not_lt.mp ha)
    rw [abs_le]
    push_cast
    constructor <;> linarith

theorem pyRound_div_nat (n d : Nat) (hd : 0 < d) :
    pyRound ((n : ℚ) / (d : ℚ)) = (divRoundHalfEven n d : ℤ) := by
  have hdQ : (0 : ℚ) < (d : ℚ) := by exact_mod_cast hd
  have hdQ' : (d : ℚ) ≠ 0 := ne_of_gt hdQ
  have hqr : n = d * (n / d) + n % d := (Nat.div_add_mod n d).symm
  have hrd : n % d < d := Nat.mod_lt _ hd
  have hx : (n : ℚ) / d = ((n / d : ℕ) : ℚ) + ((n % d : ℕ) : ℚ) / d := by
    have hn : (n : ℚ) = (d : ℚ) * ((n / d : ℕ) : ℚ) + ((n % d : ℕ) : ℚ) := by
      exact_mod_cast hqr
    rw [hn, add_div, mul_comm, mul_div_assoc, div_self hdQ', mul_one]
  have hfr0 : (0 : ℚ) ≤ ((n % d : ℕ) : ℚ) / d := by positivity
  have hfr1 : ((n % d : ℕ) : ℚ) / d < 1 := by
    rw [div_lt_one hdQ]
    exact_mod_cast hrd
  have hfloor : ⌊(n : ℚ) / d⌋ = ((n / d : ℕ) : ℤ) := by
    have h := Rat.floor_intCast_div_natCast (n : ℤ) d
    rw [← Int.natCast_div, Int.cast_natCast] at h
    exact h
  have hfrac : (n : ℚ) / d - (((n / d : ℕ) : ℤ) : ℚ) = ((n % d : ℕ) : ℚ) / d := by
    rw [hx, Int.cast_natCast]
    ring
  have h1 : (((n : ℚ) / d - (((n / d : ℕ) : ℤ) : ℚ)) < 1/2) ↔ (2 * (n % d) < d) := by
    rw [hfrac, div_lt_div_iff₀ hdQ two_pos, one_mul]
    constructor
    · intro h
      have : (n % d) * 2 < d := by exact_mod_cast h
      omega
    · intro h
      exact_mod_cast (by omega : (n % d) * 2 < d)
  have h2 : ((1/2 : ℚ) < (n : ℚ) / d - (((n / d : ℕ) : ℤ) : ℚ)) ↔ (d < 2 * (n % d)) := by
    rw [hfrac, div_lt_div_iff₀ two_pos hdQ, one_mul]
    constructor
    · intro h
      have : d < (n % d) * 2 := by exact_mod_cast h
      omega
    · intro h
      exact_mod_cast (by omega : d < (n % d) * 2)
  have hpar : ((((n / d : ℕ) : ℤ)) % 2 = 0) ↔ ((n / d) % 2 = 0) := by omega
  simp only [pyRound, divRoundHalfEven, ratFloor_eq, hfloor]
  simp only [h1, h2, hpar]
  split_ifs
  · rfl
  · rw [Nat.cast_add, Nat.cast_one]
  · rfl
  · rw [Nat.cast_add, Nat.cast_one]

theorem insertByBytes_perm (p : String × Nat) (l : List (String × Nat)) :
    List.Perm (insertByBytes p l) (p :: l) := by
  induction l with
  | nil => exact List.Perm.refl _
  | cons q rest ih =>
    simp only [insertByBytes]
    split
    · exact List.Perm.refl _
    · exact (List.Perm.cons q ih).trans (List.Perm.swap p q rest)

theorem sortedLangs_perm (l : List (String × Nat)) : List.Perm (sortedLangs l) l := by
  induction l with
  | nil => exact List.Perm.refl _
  | cons p rest ih =>
    exact (insertByBytes_perm p (sortedLangs rest)).trans (List.Perm.cons p ih)

theorem insertByBytes_pairwise {p : String × Nat} {l : List (String × Nat)}
    (h : l.Pairwise (fun a b => b.2 ≤ a.2)) :
    (insertByBytes p l).Pairwise (fun a b => b.2 ≤ a.2) := by
  induction l with
  | nil => simp [insertByBytes]
  | cons q rest ih =>
    rw [List.pairwise_cons] at h
    simp only [insertByBytes]
    split
    · rename_i hq
      rw [List.pairwise_cons]
      refine ⟨?_, List.pairwise_cons.mpr h⟩
      intro x hx
      rcases List.mem_cons.mp hx with hx | hx
      · subst hx; exact hq
      · exact le_trans (h.1 x hx) hq
    · rename_i hq
      rw [List.pairwise_cons]
      refine ⟨?_, ih h.2⟩
      intro x hx
      have hx' := (insertByBytes_perm p rest).mem_iff.mp hx
      rcases List.mem_cons.mp hx' with hx' | hx'
      · subst hx'; omega
      · exact h.1 x hx'

theorem sortedLangs_pairwise (l : List (String × Nat)) :
    (sortedLangs l).Pairwise (fun a b => b.2 ≤ a.2) := by
  induction l with
  | nil => simp [sortedLangs]
  | cons p rest ih => exact insertByBytes_pairwise ih

theorem filter_insertByBytes (p : String × Nat) (l : List (String × Nat)) (c : Nat) :
    (insertByBytes p l).filter (fun q => q.2 == c) =
      if p.2 = c then p :: l.filter (fun q => q.2 == c)
      else l.filter (fun q => q.2 == c) := by
  induction l with
  | nil =>
    by_cases hc : p.2 = c
    · simp [insertByBytes, List.filter_cons, hc]
    · simp [insertByBytes, List.filter_cons, hc]
  | cons q rest ih =>
    by_cases hq : q.2 ≤ p.2
    · by_cases hc : p.2 = c
      · subst hc
        simp [insertByBytes, hq, List.filter_cons]
      · simp [insertByBytes, hq, List.filter_cons, hc]
    · by_cases hc : p.2 = c
      · subst hc
        have hqc : ¬ (q.2 = p.2) := by omega
        simp [insertByBytes, hq, List.filter_cons, hqc, ih]
      · simp [insertByBytes, hq, List.filter_cons, hc, ih]

theorem sortedLangs_filter (l : List (String × Nat)) (c : Nat) :
    (sortedLangs l).filter (fun q => q.2 == c) = l.filter (fun q => q.2 == c) := by
  induction l with
  | nil => rfl
  | cons p rest ih =>
    by_cases hc : p.2 = c
    · simp [sortedLangs, filter_insertByBytes, List.filter_cons, hc, ih]
    · simp [sortedLangs, filter_insertByBytes, List.filter_cons, hc, ih]

theorem pctTenths_eq_div (b total : Nat) (h : 0 < total) :
    pctTenths b total = (divRoundHalfEven (1000 * b) total : ℤ) := by
  have hx : 10 * pctQ b total = ((1000 * b : ℕ) : ℚ) / (total : ℚ) := by
    unfold pctQ
    push_cast
    ring
  rw [pctTenths, hx, pyRound_div_nat _ _ h]

theorem sum_map_tenths (l : List (String × Nat)) (t : Nat) (ht : 0 < t)
    (hsum : (l.map (·.2)).sum = t) :
    (l.map (fun p => 10 * pctQ p.2 t)).sum = 1000 := by
  have htQ : (t : ℚ) ≠ 0 := Nat.cast_ne_zero.mpr ht.ne'
  have h1 : (l.map (fun p => 10 * pctQ p.2 t)) =
      (l.map (fun p => (1000 / (t : ℚ)) * ((p.2 : ℕ) : ℚ))) := by
    refine List.map_congr_left (fun p _ => ?_)
    unfold pctQ
    ring
  rw [h1, List.sum_map_mul_left]
  have h2 : (l.map (fun p => ((p.2 : ℕ) : ℚ))).sum = ((t : ℕ) : ℚ) := by
    rw [← hsum, Nat.cast_list_sum, List.map_map]
    rfl
  rw [h2]
  field_simp

theorem sum_pyRound_err (ys : List ℚ) :
    |((ys.map (fun y => ((pyRound y : ℤ) : ℚ))).sum) - ys.sum| ≤ (ys.length : ℚ) / 2 := by
  induction ys with
  | nil => simp
  | cons y ys ih =>
    simp only [List.map_cons, List.sum_cons, List.length_cons]
    have h := abs_pyRound_sub_le y
    have hsplit :
        ((pyRound y : ℤ) : ℚ) + (ys.map (fun y => ((pyRound y : ℤ) : ℚ))).sum - (y + ys.sum) =
          (((pyRound y : ℤ) : ℚ) - y) +
            ((ys.map (fun y => ((pyRound y : ℤ) : ℚ))).sum - ys.sum) := by
      ring
    rw [hsplit]
    refine le_trans (abs_add _ _) ?_
    push_cast
    linarith

theorem filled_eq_div (b total : Nat) (h : 0 < total) :
    pyRound (pctQ b total / 100 * ((20 : ℕ) : ℚ)) =
      (divRoundHalfEven (20 * b) total : ℤ) := by
  have hx : pctQ b total / 100 * ((20 : ℕ) : ℚ) =
      ((20 * b : ℕ) : ℚ) / (total : ℚ) := by
    unfold pctQ
    push_cast
    ring
  rw [hx, pyRound_div_nat _ _ h]

theorem totalOf_addTotal (t : List (String × Nat)) (k : String) (b : Nat)
    (lang : String) :
    totalOf (addTotal t k b) lang =
      totalOf t lang + (if k = lang then b else 0) := by
  induction t with
  | nil =>
    by_cases hk : k = lang
    · simp [addTotal, totalOf, hk]
    · simp [addTotal, totalOf, hk]
  | cons kv rest ih =>
    obtain ⟨k', v'⟩ := kv
    simp only [addTotal]
    by_cases hk' : k' = k
    · subst hk'
      rw [if_pos rfl]
      simp only [totalOf]
      by_cases hl : k' = lang
      · simp [hl]
      · simp [hl]
    · rw [if_neg hk']
      simp only [totalOf]
      by_cases hl : k' = lang
      · have hkl : ¬ (k = lang) := fun hh => hk' (hl.trans hh.symm)
        simp [hl, hkl]
      · simp [hl, ih]

theorem totalOf_addLangs (data : List (String × Nat)) :
    ∀ (t : List (String × Nat)) (lang : String),
      totalOf (addLangs t data) lang =
        totalOf t lang + ((data.filter (fun kb => kb.1 = lang)).map (·.2)).sum := by
  induction data with
  | nil =>
    intro t lang
    simp [addLangs]
  | cons kb rest ih =>
    intro t lang
    have hstep : addLangs t (kb :: rest) = addLangs (addTotal t kb.1 kb.2) rest := rfl
    rw [hstep, ih, totalOf_addTotal]
    by_cases hk : kb.1 = lang
    · simp only [List.filter_cons, hk]
      simp
      omega
    · simp [List.filter_cons, hk]

theorem totalOf_aggStep (fetch : String → Except String (List (String × Nat)))
    (t : List (String × Nat)) (r : Repo) (lang : String) :
    totalOf (aggStep fetch t r) lang = totalOf t lang + repoContrib fetch r lang := by
  unfold aggStep repoContrib
  cases hf : r.fork
  · simp only [Bool.false_eq_true, if_false]
    cases hu : r.languages_url with
    | none => simp
    | some u =>
      by_cases hu0 : u = ""
      · simp [hu0]
      · simp only [if_neg hu0]
        cases hfu : fetch u with
        | error e => simp
        | ok data => simp [totalOf_addLangs]
  · simp

theorem totalOf_foldl_agg (repos : List Repo)
    (fetch : String → Except String (List (String × Nat))) :
    ∀ (t : List (String × Nat)) (lang : String),
      totalOf (repos.foldl (aggStep fetch) t) lang =
        totalOf t lang + (repos.map (fun r => repoContrib fetch r lang)).sum := by
  induction repos with
  | nil =>
    intro t lang
    simp
  | cons r rest ih =>
    intro t lang
    simp only [List.foldl_cons, List.map_cons, List.sum_cons]
    rw [ih, totalOf_aggStep]
    omega

theorem innerLoop_spec (limit : Nat) (cs : List CommitRef) :
    ∀ acc : List CommitRef, acc.length < limit →
      innerLoop limit acc cs =
        ((acc ++ cs).take limit, decide (limit ≤ acc.length + cs.length)) := by
  induction cs with
  | nil =>
    intro acc h
    simp only [innerLoop, List.append_nil, Nat.add_zero]
    rw [List.take_of_length_le (le_of_lt h)]
    have hno : ¬ (limit ≤ acc.length) := by omega
    simp [hno]
  | cons c cs ih =>
    intro acc h
    simp only [innerLoop, List.length_append, List.length_cons, List.length_nil]
    by_cases hl : limit ≤ acc.length + (0 + 1)
    · have hlim : limit = acc.length + 1 := by omega
      subst hlim
      rw [if_pos hl]
      have h1 : (acc ++ c :: cs).take (acc.length + 1) = acc ++ [c] := by
        rw [show acc ++ c :: cs = (acc ++ [c]) ++ cs by simp]
        have hlen : (acc ++ [c]).length = acc.length + 1 := by simp
        rw [← hlen, List.take_left]
      have h2 : acc.length + 1 ≤ acc.length + (cs.length + 1) := by omega
      rw [h1]
      simp [h2]
    · rw [if_neg hl]
      have h' : (acc ++ [c]).length < limit := by
        simp only [List.length_append, List.length_cons, List.length_nil]
        omega
      rw [ih (acc ++ [c]) h']
      simp only [List.append_assoc, List.singleton_append, List.length_append,
        List.length_cons, List.length_nil]
      refine congrArg (Prod.mk _) ?_
      have harr : acc.length + (0 + 1) + cs.length = acc.length + (cs.length + 1) := by
        omega
      rw [harr]

theorem fetchLoop_spec (limit : Nat) (events : List Event) :
    ∀ acc : List CommitRef, acc.length < limit →
      fetchLoop limit events acc = (acc ++ pushedRefs events).take limit := by
  induction events with
  | nil =>
    intro acc h
    simp only [fetchLoop, pushedRefs, List.filter_nil, List.flatMap_nil, List.append_nil]
    rw [List.take_of_length_le (le_of_lt h)]
  | cons ev rest ih =>
    intro acc h
    by_cases hp : ev.type = "PushEvent"
    · have hpr : pushedRefs (ev :: rest) =
          pushCommits ev.repoName ev.commits ++ pushedRefs rest := by
        simp [pushedRefs, List.filter_cons, hp]
      simp only [fetchLoop, if_neg (not_not_intro hp)]
      rw [innerLoop_spec limit (pushCommits ev.repoName ev.commits) acc h]
      dsimp only
      by_cases hf : limit ≤ acc.length + (pushCommits ev.repoName ev.commits).length
      · rw [decide_eq_true hf, if_pos rfl, hpr, ← List.append_assoc]
        exact List.left_eq_take_iff.mpr
          (Or.inr (by simp only [List.length_append]; omega))
      · have hlen : (acc ++ pushCommits ev.repoName ev.commits).length < limit := by
          simp only [List.length_append]
          omega
        have hd : decide
            (limit ≤ acc.length + (pushCommits ev.repoName ev.commits).length) = false := by
          simp only [decide_eq_false_iff_not]
          omega
        rw [hd, if_neg (by simp)]
        rw [List.take_of_length_le (le_of_lt hlen), ih _ hlen, hpr, List.append_assoc]
    · have hpr : pushedRefs (ev :: rest) = pushedRefs rest := by
        simp [pushedRefs, List.filter_cons, hp]
      simp only [fetchLoop, if_pos hp]
      rw [ih acc h, hpr]

/-! ## Claim C6 -/

/-- C6: for every language-totals mapping whose total byte count is zero
(including the empty mapping), `build_language_section` returns exactly the
sentinel string `"No language data available.\n"` and never divides. -/
theorem c6_zero_total_sentinel (lang_totals : List (String × Nat))
    (h : sumBytes lang_totals = 0) :
    build_language_section lang_totals = "No language data available.\n" := by
  simp only [build_language_section]
  rw [if_pos h]

/-- Witness for C6 at the concrete mapping `{"A": 0}` (and so in particular
the zero-total case is reachable). -/
theorem c6_zero_total_sentinel_witness :
    sumBytes [("A", 0)] = 0 ∧
    build_language_section [("A", 0)] = "No language data available.\n" :=
  ⟨rfl, c6_zero_total_sentinel [("A", 0)] rfl⟩

/-! ## Claim C7 -/

/-- C7: for every language-totals mapping with positive total, the rows of
the language table (the sorted pair list the section maps over) are ordered
by byte count descending, and the rows with any fixed byte count keep their
original relative order (the sort is stable). -/
theorem c7_rows_sorted_descending_stable (lang_totals : List (String × Nat))
    (h : 0 < sumBytes lang_totals) :
    (sortedLangs lang_totals).Pairwise (fun a b => b.2 ≤ a.2) ∧
    ∀ c : Nat, (sortedLangs lang_totals).filter (fun q => q.2 == c) =
      lang_totals.filter (fun q => q.2 == c) :=
  ⟨sortedLangs_pairwise _, fun c => sortedLangs_filter _ c⟩

/-- Witness for C7 at a mapping with a tie (`A` and `C` both 25 bytes). -/
theorem c7_rows_sorted_descending_stable_witness :
    (sortedLangs [("A", 25), ("B", 75), ("C", 25)]).Pairwise
      (fun a b => b.2 ≤ a.2) ∧
    (sortedLangs [("A", 25), ("B", 75), ("C", 25)]).filter (fun q => q.2 == 25) =
      [("A", 25), ("B", 75), ("C", 25)].filter (fun q => q.2 == 25) :=
  ⟨(c7_rows_sorted_descending_stable [("A", 25), ("B", 75), ("C", 25)]
      (by decide)).1,
   (c7_rows_sorted_descending_stable [("A", 25), ("B", 75), ("C", 25)]
      (by decide)).2 25⟩

/-! ## Claim C5 -/

/-- C5: for every language-totals mapping with positive total, every row's
bar is `filled` copies of the filled glyph followed by `20 - filled` copies
of the empty glyph, `filled = round(percent / 100 * 20)` (round half to
even, which the claim admits), `0 ≤ filled ≤ 20`, and the bar is exactly 20
glyphs long. -/
theorem c5_bar_shape (lang_totals : List (String × Nat))
    (h : 0 < sumBytes lang_totals) :
    ∀ p ∈ sortedLangs lang_totals,
      0 ≤ pyRound (pctQ p.2 (sumBytes lang_totals) / 100 * 20) ∧
      pyRound (pctQ p.2 (sumBytes lang_totals) / 100 * 20) ≤ 20 ∧
      progress_bar (pctQ p.2 (sumBytes lang_totals)) 20 =
        strRepeat '█' (pyRound (pctQ p.2 (sumBytes lang_totals) / 100 * 20)) ++
          strRepeat '░'
            (20 - pyRound (pctQ p.2 (sumBytes lang_totals) / 100 * 20)) ∧
      (progress_bar (pctQ p.2 (sumBytes lang_totals)) 20).length = 20 := by
  intro p hp
  have hmem : p ∈ lang_totals := (sortedLangs_perm lang_totals).mem_iff.mp hp
  have hble : p.2 ≤ sumBytes lang_totals := by
    have h2 : p.2 ∈ lang_totals.map (·.2) := List.mem_map_of_mem _ hmem
    exact List.single_le_sum (fun x _ => Nat.zero_le x) _ h2
  have htQ : (0 : ℚ) < ((sumBytes lang_totals : ℕ) : ℚ) := by exact_mod_cast h
  have heq : pctQ p.2 (sumBytes lang_totals) / 100 * 20 =
      ((p.2 : ℕ) : ℚ) / ((sumBytes lang_totals : ℕ) : ℚ) * 20 := by
    unfold pctQ
    ring
  have hy0 : 0 ≤ pctQ p.2 (sumBytes lang_totals) / 100 * 20 := by
    rw [heq]
    positivity
  have hy20 : pctQ p.2 (sumBytes lang_totals) / 100 * 20 ≤ 20 := by
    rw [heq]
    have hdiv : ((p.2 : ℕ) : ℚ) / ((sumBytes lang_totals : ℕ) : ℚ) ≤ 1 := by
      rw [div_le_one htQ]
      exact_mod_cast hble
    linarith
  have hf0 : 0 ≤ pyRound (pctQ p.2 (sumBytes lang_totals) / 100 * 20) :=
    pyRound_nonneg hy0
  have hf20 : pyRound (pctQ p.2 (sumBytes lang_totals) / 100 * 20) ≤ 20 :=
    pyRound_le (by push_cast; exact hy20)
  refine ⟨hf0, hf20, ?_, ?_⟩
  · simp only [progress_bar, Nat.cast_ofNat]
  · simp only [progress_bar, strRepeat, Nat.cast_ofNat, String.length_append]
    have hlrep : ∀ (c : Char) (n : ℤ),
        (String.mk (List.replicate n.toNat c)).length = n.toNat := by
      intro c n
      show (List.replicate n.toNat c).length = n.toNat
      simp
    rw [hlrep, hlrep]
    omega

/-- Witness for C5 at the mapping `{"A": 75, "B": 25}` and its first row. -/
theorem c5_bar_shape_witness :
    0 ≤ pyRound (pctQ 75 (sumBytes [("A", 75), ("B", 25)]) / 100 * 20) ∧
    pyRound (pctQ 75 (sumBytes [("A", 75), ("B", 25)]) / 100 * 20) ≤ 20 ∧
    progress_bar (pctQ 75 (sumBytes [("A", 75), ("B", 25)])) 20 =
      strRepeat '█' (pyRound (pctQ 75 (sumBytes [("A", 75), ("B", 25)]) / 100 * 20)) ++
        strRepeat '░'
          (20 - pyRound (pctQ 75 (sumBytes [("A", 75), ("B", 25)]) / 100 * 20)) ∧
    (progress_bar (pctQ 75 (sumBytes [("A", 75), ("B", 25)])) 20).length = 20 :=
  c5_bar_shape [("A", 75), ("B", 25)] (by decide) ("A", 75) (by decide)

/-! ## Claim C2 -/

/-- C2 (amended): for every language-totals mapping with positive total, the
sum of the rendered percentages (in tenths of a percent) differs from 100.0%
(1000 tenths) by at most half a tenth — 0.05 percentage points — per row,
rather than by at most one decimal place overall. -/
theorem c2_rendered_sum_bound (lang_totals : List (String × Nat))
    (h : 0 < sumBytes lang_totals) :
    2 * (sumRenderedTenths lang_totals - 1000).natAbs ≤ lang_totals.length := by
  have hperm := sortedLangs_perm lang_totals
  have hlen : (sortedLangs lang_totals).length = lang_totals.length :=
    hperm.length_eq
  have hsum' : ((sortedLangs lang_totals).map (·.2)).sum = sumBytes lang_totals :=
    (hperm.map (·.2)).sum_eq
  have hQ := sum_map_tenths (sortedLangs lang_totals) (sumBytes lang_totals) h hsum'
  have herr := sum_pyRound_err
    ((sortedLangs lang_totals).map (fun p => 10 * pctQ p.2 (sumBytes lang_totals)))
  rw [hQ, List.length_map] at herr
  have hcast : ((sumRenderedTenths lang_totals : ℤ) : ℚ) =
      (((sortedLangs lang_totals).map
          (fun p => 10 * pctQ p.2 (sumBytes lang_totals))).map
        (fun y => ((pyRound y : ℤ) : ℚ))).sum := by
    unfold sumRenderedTenths pctTenths
    rw [Int.cast_list_sum, List.map_map, List.map_map]
    rfl
  rw [← hcast, hlen] at herr
  have habs : |((sumRenderedTenths lang_totals : ℤ) : ℚ) - 1000| =
      (((sumRenderedTenths lang_totals - 1000).natAbs : ℕ) : ℚ) := by
    rw [Int.cast_natAbs]
    push_cast
    rfl
  rw [habs] at herr
  have hfin : ((2 * (sumRenderedTenths lang_totals - 1000).natAbs : ℕ) : ℚ) ≤
      ((lang_totals.length : ℕ) : ℚ) := by
    push_cast
    linarith
  exact_mod_cast hfin

/-- Witness for C2 (amended) at the mapping `{"A": 75, "B": 25}` (two rows,
so the rendered sum is within 0.1 of 100.0). -/
theorem c2_rendered_sum_bound_witness :
    2 * (sumRenderedTenths [("A", 75), ("B", 25)] - 1000).natAbs ≤ 2 :=
  c2_rendered_sum_bound [("A", 75), ("B", 25)] (by decide)

/-- Counterexample for C2 as stated: with byte counts
`{"A": 1996, "B": 1996, "C": 1996, "D": 1996, "E": 2016}` the rendered rows
are `20.0% ×4` and `20.2%`, so the rendered percentages sum to `100.2%` —
off from 100.0 by 0.2, more than one decimal place of rounding error. -/
theorem c2_sum_counterexample :
    sumRenderedTenths
      [("A", 1996), ("B", 1996), ("C", 1996), ("D", 1996), ("E", 2016)] = 1002 ∧
    ¬ ((sumRenderedTenths
      [("A", 1996), ("B", 1996), ("C", 1996), ("D", 1996), ("E", 2016)] -
        1000).natAbs ≤ 1) := by
  have h1 : pctTenths 1996 10000 = 200 := by
    rw [pctTenths_eq_div 1996 10000 (by decide)]
    decide
  have h2 : pctTenths 2016 10000 = 202 := by
    rw [pctTenths_eq_div 2016 10000 (by decide)]
    decide
  have hsort : sortedLangs
      [("A", 1996), ("B", 1996), ("C", 1996), ("D", 1996), ("E", 2016)] =
      [("E", 2016), ("A", 1996), ("B", 1996), ("C", 1996), ("D", 1996)] := by
    decide
  have hsb : sumBytes
      [("A", 1996), ("B", 1996), ("C", 1996), ("D", 1996), ("E", 2016)] =
      10000 := by
    decide
  have hs : sumRenderedTenths
      [("A", 1996), ("B", 1996), ("C", 1996), ("D", 1996), ("E", 2016)] = 1002 := by
    unfold sumRenderedTenths
    rw [hsort, hsb]
    simp [h1, h2]
  exact ⟨hs, by rw [hs]; decide⟩

/-! ## Claim C3 -/

/-- C3 (amended): for every event feed and every limit `N ≥ 1`,
`fetch_recent_commits` returns exactly the first `N` commit references of
the feed's push events taken in feed order with each event's commits in
payload order (so at most `N`, stopping mid-event once `N` are collected);
at `N = 0` the code instead returns one reference before checking the
limit. -/
theorem c3_fetch_takes_limit (events : List Event) (limit : Nat)
    (h : 1 ≤ limit) :
    fetch_recent_commits (.ok events) limit = (pushedRefs events).take limit := by
  unfold fetch_recent_commits
  exact fetchLoop_spec limit events [] (by simpa using h)

/-- Witness for C3 at the claim's own instance: a feed of 3 push events with
2 commits each and limit 5 yields the 5-element truncation, dropping the
third event's second commit. -/
theorem c3_fetch_takes_limit_witness :
    fetch_recent_commits
      (.ok [⟨"PushEvent", some "u/r1", [⟨some "a1", some "m1"⟩, ⟨some "a2", some "m2"⟩]⟩,
            ⟨"PushEvent", some "u/r2", [⟨some "b1", some "m3"⟩, ⟨some "b2", some "m4"⟩]⟩,
            ⟨"PushEvent", some "u/r3", [⟨some "c1", some "m5"⟩, ⟨some "c2", some "m6"⟩]⟩]) 5 =
      (pushedRefs
        [⟨"PushEvent", some "u/r1", [⟨some "a1", some "m1"⟩, ⟨some "a2", some "m2"⟩]⟩,
         ⟨"PushEvent", some "u/r2", [⟨some "b1", some "m3"⟩, ⟨some "b2", some "m4"⟩]⟩,
         ⟨"PushEvent", some "u/r3", [⟨some "c1", some "m5"⟩, ⟨some "c2", some "m6"⟩]⟩]).take 5 ∧
    (fetch_recent_commits
      (.ok [⟨"PushEvent", some "u/r1", [⟨some "a1", some "m1"⟩, ⟨some "a2", some "m2"⟩]⟩,
            ⟨"PushEvent", some "u/r2", [⟨some "b1", some "m3"⟩, ⟨some "b2", some "m4"⟩]⟩,
            ⟨"PushEvent", some "u/r3", [⟨some "c1", some "m5"⟩, ⟨some "c2", some "m6"⟩]⟩]) 5).length = 5 :=
  ⟨c3_fetch_takes_limit _ 5 (by decide), by decide⟩

/-- Counterexample for C3 as stated (for every limit `N`): at `N = 0`, a
feed with one push event holding one commit makes the fetcher return one
commit reference, not at most zero — the limit check runs only after the
first append. -/
theorem c3_limit_zero_counterexample :
    ¬ ((fetch_recent_commits
        (.ok [⟨"PushEvent", some "u/r", [⟨some "s", some "m"⟩]⟩]) 0).length ≤ 0) := by
  decide

/-! ## Claim C9 -/

/-- C9: whenever the single event-feed fetch fails, `fetch_recent_commits`
returns the empty sequence instead of propagating the failure, and the
document builder's line list then contains the fixed no-commits placeholder
line. -/
theorem c9_feed_error_empty_placeholder (e : String) (limit : Nat) (cfg : Cfg)
    (linkedin : String) (stats : StatsUrls) (lang_md : String)
    (last_updated : String) :
    fetch_recent_commits (.error e) limit = [] ∧
    "_No public commits found yet — start committing!_\n" ∈
      readmeLines cfg linkedin stats lang_md
        (fetch_recent_commits (.error e) limit) last_updated := by
  refine ⟨rfl, ?_⟩
  show _ ∈ readmeLines cfg linkedin stats lang_md [] last_updated
  simp [readmeLines]

/-! ## Claim C1 -/

/-- C1 (code bug): `build_readme` is not failure-free on the inputs `main`
hands it — when `config.yml` has no `linkedin_url` key, `main` passes the
key with value `None`, and `cfg.get("linkedin_url", "").strip()` raises
`AttributeError` (the `""` default is dead because the key is present).
This theorem evaluates the embedded builder at exactly that input. -/
theorem c1_raises_on_null_linkedin :
    build_readme
      ⟨some "DivineSMG", some "DivineSMG", none, none,
       some "https://img.shields.io/badge/dynamic/json?color=blue&label=Visitors", none⟩
      ⟨some "https://github-readme-stats.vercel.app/api?username=DivineSMG",
       some "https://github-readme-stats.vercel.app/api/top-langs/?username=DivineSMG"⟩
      "No language data available.\n" [] "2026-10-12 00:00:00" =
    Except.error "AttributeError: 'NoneType' object has no attribute 'strip'" :=
  rfl

/-! ## Claim C4 -/

/-- C4 (amended): `find_gif_url` follows the claimed priority, except that
each configured value is first stripped of surrounding whitespace (so the
external URL is returned verbatim only when it has none), the local path is
returned with backslashes replaced by forward slashes, and a blank branch
name falls back to `"Main"`. -/
theorem c4_gif_url_priority (cfg : GifCfg) (username : String)
    (exists_at : String → Bool) :
    (pyStrip (cfg.external_gif_url.getD "") ≠ "" →
      find_gif_url cfg username exists_at = pyStrip (cfg.external_gif_url.getD "")) ∧
    (pyStrip (cfg.external_gif_url.getD "") = "" →
      pyStrip (cfg.gif_path.getD "") ≠ "" →
      exists_at (pyStrip (cfg.gif_path.getD "")) = true →
      find_gif_url cfg username exists_at =
        replaceStr (pyStrip (cfg.gif_path.getD "")) '\\' "/") ∧
    (pyStrip (cfg.external_gif_url.getD "") = "" →
      pyStrip (cfg.gif_path.getD "") ≠ "" →
      exists_at (pyStrip (cfg.gif_path.getD "")) = false →
      find_gif_url cfg username exists_at =
        "https://raw.githubusercontent.com/" ++ username ++ "/" ++ username ++
          "/" ++
          (if pyStrip (cfg.branch_name.getD "Main") = "" then "Main"
           else pyStrip (cfg.branch_name.getD "Main")) ++
          "/" ++ pyStrip (cfg.gif_path.getD "")) ∧
    (pyStrip (cfg.external_gif_url.getD "") = "" →
      pyStrip (cfg.gif_path.getD "") = "" →
      find_gif_url cfg username exists_at = "") := by
  refine ⟨?_, ?_, ?_, ?_⟩
  · intro h1
    simp [find_gif_url, h1]
  · intro h1 h2 h3
    simp [find_gif_url, h1, h2, h3]
  · intro h1 h2 h3
    simp [find_gif_url, h1, h2, h3]
  · intro h1 h2
    simp [find_gif_url, h1, h2]

/-- Witness for C4 (amended), first branch: a configured external URL with
no surrounding whitespace is returned verbatim even when a gif path is also
configured and exists. -/
theorem c4_gif_url_priority_witness :
    find_gif_url ⟨some "https://e.com/x.gif", some "assets/x.gif", none⟩ "u"
      (fun _ => true) = "https://e.com/x.gif" := by
  have hw := (c4_gif_url_priority
      ⟨some "https://e.com/x.gif", some "assets/x.gif", none⟩ "u"
      (fun _ => true)).1 (by decide)
  rw [show pyStrip ((some "https://e.com/x.gif" : Option String).getD "") =
      "https://e.com/x.gif" from by decide] at hw
  exact hw

/-- Counterexample for C4 as stated: a configured external URL that carries
surrounding whitespace is returned stripped, not verbatim. -/
theorem c4_verbatim_counterexample :
    find_gif_url ⟨some " https://e.com/a.gif ", none, none⟩ "DivineSMG"
        (fun _ => false) = "https://e.com/a.gif" ∧
    "https://e.com/a.gif" ≠ " https://e.com/a.gif " := by
  constructor
  · decide
  · decide

/-! ## Claim C8 -/

/-- C8: the aggregated byte count of every language is the sum of the
per-repository contributions, where forks, repositories without a usable
languages reference, and repositories whose fetch fails contribute zero —
so one bad repository never fails the aggregation; and on the claim's
instance (one fork with bytes, one non-fork with bytes) only the non-fork's
contribution appears. -/
theorem c8_aggregation_totals (repos : List Repo)
    (fetch : String → Except String (List (String × Nat))) (lang : String) :
    totalOf (fetch_languages_for_repos repos fetch) lang =
      (repos.map (fun r => repoContrib fetch r lang)).sum ∧
    fetch_languages_for_repos
      [⟨true, some "https://api.github.com/repos/u/forked/languages"⟩,
       ⟨false, some "https://api.github.com/repos/u/own/languages"⟩]
      (fun u =>
        if u = "https://api.github.com/repos/u/own/languages" then
          .ok [("D", 20)]
        else .ok [("C", 10)]) = [("D", 20)] := by
  constructor
  · have hmain := totalOf_foldl_agg repos fetch [] lang
    simpa [fetch_languages_for_repos, totalOf] using hmain
  · decide

/-! ## Claim C10 -/

/-- C10: a non-fork repository record whose languages reference is missing
or empty is silently skipped: deleting it from the repository list does not
change the aggregated totals at all. -/
theorem c10_skip_blank_languages_url (pre post : List Repo) (r : Repo)
    (fetch : String → Except String (List (String × Nat)))
    (hf : r.fork = false)
    (hu : r.languages_url = none ∨ r.languages_url = some "") :
    fetch_languages_for_repos (pre ++ r :: post) fetch =
      fetch_languages_for_repos (pre ++ post) fetch := by
  unfold fetch_languages_for_repos
  rw [List.foldl_append, List.foldl_cons, List.foldl_append]
  have hstep : aggStep fetch (pre.foldl (aggStep fetch) []) r =
      pre.foldl (aggStep fetch) [] := by
    unfold aggStep
    rcases hu with hu | hu <;> simp [hf, hu]
  rw [hstep]

/-- Witness for C10: a non-fork record with an absent languages reference
contributes nothing next to an ordinary record. -/
theorem c10_skip_blank_languages_url_witness :
    fetch_languages_for_repos [⟨false, none⟩, ⟨false, some "u"⟩]
        (fun _ => .ok [("C", 5)]) =
      fetch_languages_for_repos [⟨false, some "u"⟩] (fun _ => .ok [("C", 5)]) :=
  c10_skip_blank_languages_url [] [⟨false, some "u"⟩] ⟨false, none⟩
    (fun _ => .ok [("C", 5)]) rfl (Or.inl rfl)

end GenReadme
